import Mathlib

/-!
Shallow embedding of the entwine point-cloud builder core
(src/entwine/builder/chunk.cpp, src/entwine/builder/builder.cpp,
src/entwine/util/algorithm.hpp) together with the supporting data model.

Supporting types that live outside the given sources (Point, Bounds, Key,
ChunkKey, Voxel, Metadata, Hierarchy, the octant helper `getDirection`,
and the io/postfix helpers) are modelled from the specification; each such
definition carries a doc comment saying so.  Point coordinates are exact
rationals: the builder works in canonical integer coordinates, and the only
non-integer value that ever appears is a bounds midpoint (a half-integer).
-/

namespace Entwine

/-- Modelled from the spec: a 3-d point in canonical coordinates
(types/point.hpp is not among the sources).  Exact rational coordinates. -/
structure Point where
  x : ℚ
  y : ℚ
  z : ℚ
deriving DecidableEq, Repr

/-- Modelled from the spec: squared 3-d distance between two points. -/
def Point.sqDist3d (p q : Point) : ℚ :=
  (p.x - q.x) ^ 2 + (p.y - q.y) ^ 2 + (p.z - q.z) ^ 2

/-- Modelled from the spec: an axis-aligned box with `mid`, `overlaps`,
`contains` and octant subdivision (types/bounds.hpp is not among the
sources). -/
structure Bounds where
  minimum : Point
  maximum : Point
deriving DecidableEq, Repr

/-- Modelled from the spec: the midpoint of a bounds box. -/
def Bounds.mid (b : Bounds) : Point :=
  ⟨(b.minimum.x + b.maximum.x) / 2,
   (b.minimum.y + b.maximum.y) / 2,
   (b.minimum.z + b.maximum.z) / 2⟩

/-- Modelled from the spec: two axis-aligned boxes overlap iff their
projections intersect on every axis. -/
def Bounds.overlaps (a b : Bounds) : Bool :=
  decide (a.minimum.x ≤ b.maximum.x) && decide (b.minimum.x ≤ a.maximum.x) &&
  decide (a.minimum.y ≤ b.maximum.y) && decide (b.minimum.y ≤ a.maximum.y) &&
  decide (a.minimum.z ≤ b.maximum.z) && decide (b.minimum.z ≤ a.maximum.z)

/-- Modelled from the spec: componentwise intersection of two boxes. -/
def intersection (a b : Bounds) : Bounds :=
  ⟨⟨max a.minimum.x b.minimum.x, max a.minimum.y b.minimum.y,
    max a.minimum.z b.minimum.z⟩,
   ⟨min a.maximum.x b.maximum.x, min a.maximum.y b.maximum.y,
    min a.maximum.z b.maximum.z⟩⟩

/-- Modelled from the spec: the octant of point `p` relative to midpoint
`mid`; bit 0 is east (x), bit 1 north (y), bit 2 up (z). -/
def getDirection (mid p : Point) : Fin 8 :=
  ⟨(if mid.x ≤ p.x then 1 else 0) +
   (if mid.y ≤ p.y then 2 else 0) +
   (if mid.z ≤ p.z then 4 else 0), by
    split <;> split <;> split <;> simp⟩

/-- x bit of an octant direction. -/
def dirBitX (d : Fin 8) : ℕ := d.val % 2
/-- y bit of an octant direction. -/
def dirBitY (d : Fin 8) : ℕ := d.val / 2 % 2
/-- z bit of an octant direction. -/
def dirBitZ (d : Fin 8) : ℕ := d.val / 4

/-- Modelled from the spec: the half of a bounds box selected by one octant
direction. -/
def Bounds.split (b : Bounds) (d : Fin 8) : Bounds :=
  let m := b.mid
  ⟨⟨if dirBitX d = 1 then m.x else b.minimum.x,
    if dirBitY d = 1 then m.y else b.minimum.y,
    if dirBitZ d = 1 then m.z else b.minimum.z⟩,
   ⟨if dirBitX d = 1 then b.maximum.x else m.x,
    if dirBitY d = 1 then b.maximum.y else m.y,
    if dirBitZ d = 1 then b.maximum.z else m.z⟩⟩

/-- Integer grid coordinates of a key position. -/
structure Xyz where
  x : ℕ
  y : ℕ
  z : ℕ
deriving DecidableEq, Repr

/-- Canonical `(depth, x, y, z)` identity of a chunk. -/
structure Dxyz where
  d : ℕ
  x : ℕ
  y : ℕ
  z : ℕ
deriving DecidableEq, Repr

/-- Modelled from the spec: an octree descent key `(bounds, depth,
position)` (types/key.hpp is not among the sources). -/
structure Key where
  bounds : Bounds
  depth : ℕ
  position : Xyz
deriving DecidableEq, Repr

/-- Modelled from the spec: descend a key one level toward point `p`:
halve the bounds toward `p`'s octant, double the position and add the
octant bits, increment the depth. -/
def Key.step (k : Key) (p : Point) : Key :=
  let dir := getDirection k.bounds.mid p
  { bounds := k.bounds.split dir
    depth := k.depth + 1
    position := ⟨2 * k.position.x + dirBitX dir,
                 2 * k.position.y + dirBitY dir,
                 2 * k.position.z + dirBitZ dir⟩ }

/-- Modelled from the spec: a `(bounds, depth, position)` triple naming a
chunk cell (types/key.hpp is not among the sources). -/
structure ChunkKey where
  bounds : Bounds
  depth : ℕ
  position : Xyz
deriving DecidableEq, Repr

/-- Modelled from the spec: the child chunk key in octant direction `d`. -/
def ChunkKey.getStep (ck : ChunkKey) (d : Fin 8) : ChunkKey :=
  { bounds := ck.bounds.split d
    depth := ck.depth + 1
    position := ⟨2 * ck.position.x + dirBitX d,
                 2 * ck.position.y + dirBitY d,
                 2 * ck.position.z + dirBitZ d⟩ }

/-- The stable `(depth, x, y, z)` name of a chunk. -/
def ChunkKey.dxyz (ck : ChunkKey) : Dxyz :=
  ⟨ck.depth, ck.position.x, ck.position.y, ck.position.z⟩

/-- Modelled from the spec: the `d-x-y-z` file-name stem of a chunk. -/
def ChunkKey.toString (ck : ChunkKey) : String :=
  ToString.toString ck.depth ++ "-" ++ ToString.toString ck.position.x ++
  "-" ++ ToString.toString ck.position.y ++ "-" ++
  ToString.toString ck.position.z

/-- Modelled from the spec: a subset designation `{id, of}`. -/
structure Subset where
  id : ℕ
  «of» : ℕ
deriving DecidableEq, Repr

/-- Internal build tunables (`metadata.internal` in the sources). -/
structure Internal where
  minNodeSize : ℕ
  maxNodeSize : ℕ
deriving DecidableEq, Repr

/-- Modelled from the spec: the fields of `Metadata`
(types/metadata.hpp is not among the sources) that the builder core
reads. -/
structure Metadata where
  span : ℕ
  startDepth : ℕ
  sharedDepth : ℕ
  bounds : Bounds
  boundsConforming : Bounds
  subset : Option Subset
  internal : Internal
  dataType : String
deriving DecidableEq, Repr

/-- Modelled from the spec: accessor for the shared depth. -/
def getSharedDepth (m : Metadata) : ℕ := m.sharedDepth

/-- Modelled from the spec: accessor for the start depth. -/
def getStartDepth (m : Metadata) : ℕ := m.startDepth

/-- Modelled from the spec: the subset file-name suffix applied to chunk
files below the shared depth. -/
def getPostfixStr (m : Metadata) (depth : ℕ) : String :=
  match m.subset with
  | some s => if depth < m.sharedDepth then "-" ++ ToString.toString s.id else ""
  | none => ""

/-- Modelled from the spec: the hierarchy is a sparse map from `dxyz` to a
persisted point count; absence is count `0` (builder/hierarchy.hpp is not
among the sources). -/
def Hierarchy := Dxyz → ℕ

namespace hierarchy

/-- Modelled from the spec: look up the persisted point count of a node
(`0` when the node is absent). -/
def get (h : Hierarchy) (k : Dxyz) : ℕ := h k

end hierarchy

/-- Modelled from the spec: a fixed-width point record; the deep payload is
the record's bytes (types/voxel.hpp is not among the sources). -/
structure Voxel where
  point : Point
  data : List ℕ
deriving DecidableEq, Repr

/-- `Overflow::Entry` (builder/overflow.hpp): one deep-copied point waiting
in an overflow bucket, with the key it arrived under. -/
structure OverflowEntry where
  voxel : Voxel
  key : Key
deriving DecidableEq, Repr

/-- `Overflow` (builder/overflow.hpp): a per-octant bucket; `list` is the
entry list in insertion order.  The arena `block` holds one slot per entry,
so `block.size()` is `list.length` and the block contents are the entries'
voxels in order. -/
structure Overflow where
  chunkKey : ChunkKey
  list : List OverflowEntry
deriving DecidableEq, Repr

/-- `Overflow::insert`: deep-copy the `(voxel, key)` entry onto the end of
the bucket. -/
def Overflow.insert (o : Overflow) (voxel : Voxel) (key : Key) : Overflow :=
  { o with list := o.list ++ [⟨⟨voxel.point, voxel.data⟩, key⟩] }

/-- The bucket's arena contents: one slot per entry, in insertion order
(`Overflow::block`). -/
def Overflow.block (o : Overflow) : List Voxel :=
  o.list.map (fun e => e.voxel)

/-- A recorded call to `ChunkCache::insert(voxel, key, ck, clipper)`: the
chunk hands points back to the cache during overflow, and the cache
(chunk-cache.cpp is not among the sources) routes them onward.  The shallow
embedding records these calls as emitted events. -/
structure CacheInsert where
  voxel : Voxel
  key : Key
  ck : ChunkKey
deriving DecidableEq, Repr

/-- The in-memory state of a `Chunk` (builder/chunk.hpp):
* `span` is `m_span`, fixed at construction to `metadata.span`;
* `gridSize` is the number of voxel tubes allocated for `m_grid`
  (`m_span * m_span`);
* `grid` maps an occupied cell `(tube index, z)` to its resident voxel
  (the per-tube `map<uint32_t, Voxel>` of `VoxelTube`);
* `gridBlock` is the allocation order of the `m_gridBlock` arena: the cells
  whose slots were taken from `m_gridBlock.next()`, oldest first, so
  `gridBlock.length` is `m_gridBlock.size()`;
* `overflows` and `overflowCount` are `m_overflows` and `m_overflowCount`. -/
structure Chunk where
  metadata : Metadata
  span : ℕ
  chunkKey : ChunkKey
  childKeys : Fin 8 → ChunkKey
  gridSize : ℕ
  grid : List ((ℕ × ℕ) × Voxel)
  gridBlock : List (ℕ × ℕ)
  overflows : Fin 8 → Option Overflow
  overflowCount : ℕ

/-- Association-list lookup for the grid: the first entry for a cell. -/
def gridLookup (cell : ℕ × ℕ) : List ((ℕ × ℕ) × Voxel) → Option Voxel
  | [] => none
  | e :: rest => if e.1 = cell then some e.2 else gridLookup cell rest

/-- Overwrite the resident voxel of a cell (the effect of
`voxel.swapDeep(dst, ...)` on the destination slot). -/
def gridSet (cell : ℕ × ℕ) (v : Voxel) :
    List ((ℕ × ℕ) × Voxel) → List ((ℕ × ℕ) × Voxel)
  | [] => []
  | e :: rest => if e.1 = cell then (cell, v) :: rest else e :: gridSet cell v rest

/-- `Chunk::Chunk` (chunk.cpp): build the child keys, allocate a
`span * span` grid of empty tubes, and create an overflow bucket for every
octant whose child has no persisted hierarchy entry. -/
def Chunk.construct (m : Metadata) (ck : ChunkKey) (h : Hierarchy) : Chunk :=
  { metadata := m
    span := m.span
    chunkKey := ck
    childKeys := fun d => ck.getStep d
    gridSize := m.span * m.span
    grid := []
    gridBlock := []
    overflows := fun d =>
      if hierarchy.get h (ck.getStep d).dxyz = 0
      then some ⟨ck.getStep d, []⟩ else none
    overflowCount := 0 }

/-- The size of the overflow bucket at octant `d` (`0` when absent). -/
def Chunk.bucketSize (c : Chunk) (d : Fin 8) : ℕ :=
  match c.overflows d with
  | some o => o.list.length
  | none => 0

/-- `Chunk::doOverflow` (chunk.cpp): detach the bucket at `dir`, subtract
its size from the overflow count, and re-insert every entry through the
cache with its key stepped one level toward its point, under the child
chunk key.  The C++ asserts the bucket is present; on an absent bucket the
model leaves the chunk unchanged. -/
def Chunk.doOverflow (c : Chunk) (dir : Fin 8) : Chunk × List CacheInsert :=
  match c.overflows dir with
  | none => (c, [])
  | some active =>
    ({ c with
        overflows := Function.update c.overflows dir none
        overflowCount := c.overflowCount - active.list.length },
     active.list.map (fun entry =>
       ⟨entry.voxel, entry.key.step entry.voxel.point, c.childKeys dir⟩))

/-- The bucket-selection loop of `Chunk::maybeOverflow` (chunk.cpp): scan
octants `0..7`, keeping the first bucket whose size strictly exceeds the
best so far. -/
def Chunk.selectOverflow (c : Chunk) : ℕ × Fin 8 :=
  (List.finRange 8).foldl
    (fun acc d =>
      match c.overflows d with
      | some o => if acc.1 < o.list.length then (o.list.length, d) else acc
      | none => acc)
    (0, (0 : Fin 8))

/-- `Chunk::maybeOverflow` (chunk.cpp): if the resident size
(`grid_block.size + overflow_count`) has reached `maxNodeSize` and the
largest present bucket has reached `minNodeSize`, overflow that bucket. -/
def Chunk.maybeOverflow (c : Chunk) : Chunk × List CacheInsert :=
  let gridSizeNow := c.gridBlock.length
  let ourSize := gridSizeNow + c.overflowCount
  if ourSize < c.metadata.internal.maxNodeSize then (c, [])
  else
    let sel := c.selectOverflow
    if sel.1 < c.metadata.internal.minNodeSize then (c, [])
    else c.doOverflow sel.2

/-- `Chunk::insertOverflow` (chunk.cpp): refuse below the shared depth;
refuse when the octant's bucket is gone; otherwise deep-copy the entry into
the bucket, bump the overflow count, and run `maybeOverflow` once the count
reaches `minNodeSize`. -/
def Chunk.insertOverflow (c : Chunk) (voxel : Voxel) (key : Key) :
    Bool × Chunk × List CacheInsert :=
  if c.chunkKey.depth < getSharedDepth c.metadata then (false, c, [])
  else
    let dir := getDirection c.chunkKey.bounds.mid voxel.point
    match c.overflows dir with
    | none => (false, c, [])
    | some o =>
      let c1 : Chunk :=
        { c with
            overflows := Function.update c.overflows dir (some (o.insert voxel key))
            overflowCount := c.overflowCount + 1 }
      if c.metadata.internal.minNodeSize ≤ c1.overflowCount then
        let r := c1.maybeOverflow
        (true, r.1, r.2)
      else (true, c1, [])

/-- `Chunk::insert` (chunk.cpp): locate the grid cell from the key
position; an empty cell takes the point (a fresh arena slot); an occupied
cell keeps whichever point is nearer the key bounds' midpoint (strictly
nearer swaps the deep payloads) and routes the loser through
`insertOverflow`. -/
def Chunk.insert (c : Chunk) (voxel : Voxel) (key : Key) :
    Bool × Chunk × List CacheInsert :=
  let pos := key.position
  let i := (pos.y % c.span) * c.span + (pos.x % c.span)
  match gridLookup (i, pos.z) c.grid with
  | some dst =>
    let mid := key.bounds.mid
    if voxel.point.sqDist3d mid < dst.point.sqDist3d mid then
      Chunk.insertOverflow
        { c with grid := gridSet (i, pos.z) ⟨voxel.point, voxel.data⟩ c.grid }
        ⟨dst.point, dst.data⟩ key
    else
      c.insertOverflow voxel key
  | none =>
    (true,
     { c with
        grid := ((i, pos.z), ⟨voxel.point, voxel.data⟩) :: c.grid
        gridBlock := c.gridBlock ++ [(i, pos.z)] },
     [])

/-- What `Chunk::save` hands to `io::write` (entwine/io/io.hpp is not among
the sources): the point count it returns, the concatenated point table, the
file name, and the codec tag that selects the writer. -/
structure SaveResult where
  np : ℕ
  table : List Voxel
  filename : String
  dataType : String
deriving DecidableEq, Repr

/-- `Chunk::save` (chunk.cpp): count the grid block plus every present
bucket, build one table holding the grid block followed by the present
buckets' blocks in octant order, and write it through the codec named by
`metadata.dataType` under `chunkKey.toString() + postfix(depth)`. -/
def Chunk.save (c : Chunk) : SaveResult :=
  let np :=
    (List.finRange 8).foldl
      (fun n d =>
        match c.overflows d with
        | some o => n + o.list.length
        | none => n)
      c.gridBlock.length
  let table :=
    (List.finRange 8).foldl
      (fun t d =>
        match c.overflows d with
        | some o => t ++ o.block
        | none => t)
      (c.gridBlock.filterMap (fun cell => gridLookup cell c.grid))
  { np := np
    table := table
    filename := c.chunkKey.toString ++ getPostfixStr c.metadata c.chunkKey.depth
    dataType := c.metadata.dataType }

/-! ### Builder (builder.cpp) -/

/-- Modelled from the spec: per-source info of a manifest entry
(types/source.hpp is not among the sources); only the fields the builder
reads are kept. -/
structure SourceInfo where
  points : ℕ
  bounds : Bounds
  errors : List String
deriving DecidableEq, Repr

/-- Modelled from the spec: a manifest source: a path plus its parsed
info. -/
structure Source where
  path : String
  info : SourceInfo
deriving DecidableEq, Repr

/-- A manifest entry (`BuildItem`): a source plus its `inserted` flag. -/
structure BuildItem where
  source : Source
  inserted : Bool
deriving DecidableEq, Repr

/-- The ordered input manifest. -/
def Manifest := List BuildItem

/-- How one call to `Builder::insert` terminates, as observed by the
`try`/`catch` blocks of `Builder::tryInsert`: normal return, a thrown
`std::exception` carrying a message, or any other thrown value. -/
inductive InsertOutcome where
  | ok : InsertOutcome
  | stdExc (msg : String) : InsertOutcome
  | otherThrown : InsertOutcome
deriving DecidableEq, Repr

/-- The error strings `Builder::tryInsert` appends for one outcome of the
wrapped insert. -/
def errorsOf : InsertOutcome → List String
  | .ok => []
  | .stdExc msg => [msg]
  | .otherThrown => ["Unknown error during build"]

/-- `Builder::tryInsert` (builder.cpp): run the wrapped insert; append
`e.what()` on a `std::exception`, append `"Unknown error during build"` on
any other throw; in every case mark the item inserted.  The wrapped
insert's termination is supplied as `outcome`; `manifest.at` on an
out-of-range origin would itself throw, so the model leaves the manifest
unchanged there. -/
def Builder.tryInsert (manifest : Manifest) (originId : ℕ)
    (outcome : InsertOutcome) : Manifest :=
  match List.get? manifest originId with
  | none => manifest
  | some item =>
    let item1 : BuildItem :=
      match outcome with
      | .ok => item
      | .stdExc e =>
        { item with source.info.errors := item.source.info.errors ++ [e] }
      | .otherThrown =>
        { item with source.info.errors :=
            item.source.info.errors ++ ["Unknown error during build"] }
    List.set manifest originId { item1 with inserted := true }

/-- The `active` bounds of `Builder::runInserts` (builder.cpp): the subset
bounds intersected with the conforming bounds when a subset is configured,
else the conforming bounds.  The subset's own box (`getBounds(bounds,
subset)` lives outside the sources) is modelled from the spec as an opaque
quadrant selection. -/
def getBoundsSubset (b : Bounds) (s : Subset) : Bounds :=
  let k := Nat.sqrt s.of
  let w := max k 1
  let i := (s.id - 1) % w
  let j := (s.id - 1) / w
  let sx := (b.maximum.x - b.minimum.x) / w
  let sy := (b.maximum.y - b.minimum.y) / w
  ⟨⟨b.minimum.x + sx * i, b.minimum.y + sy * j, b.minimum.z⟩,
   ⟨b.minimum.x + sx * (i + 1), b.minimum.y + sy * (j + 1), b.maximum.z⟩⟩

/-- The `active` bounds computed at the top of `Builder::runInserts`. -/
def activeBounds (m : Metadata) : Bounds :=
  match m.subset with
  | some s => intersection (getBoundsSubset m.bounds s) m.boundsConforming
  | none => m.boundsConforming

/-- The submission filter of `Builder::runInserts`: not yet inserted, has
points, and overlaps the active bounds. -/
def qualifies (active : Bounds) (item : BuildItem) : Bool :=
  !item.inserted && item.source.info.points != 0 &&
    active.overlaps item.source.info.bounds

/-- The submission loop of `Builder::runInserts` (builder.cpp): scan the
manifest in order; before each entry stop if a nonzero `limit` has been
reached; submit (record) each qualifying origin and count it. -/
def submitLoop (active : Bounds) (limit : ℕ) :
    Manifest → ℕ → ℕ → List ℕ
  | [], _, _ => []
  | item :: rest, origin, filesInserted =>
    if limit ≠ 0 ∧ limit ≤ filesInserted then []
    else if qualifies active item then
      origin :: submitLoop active limit rest (origin + 1) (filesInserted + 1)
    else submitLoop active limit rest (origin + 1) filesInserted

/-- The origins `Builder::runInserts` submits `tryInsert` tasks for, in
submission order. -/
def Builder.runInsertsSubmitted (m : Metadata) (manifest : Manifest)
    (limit : ℕ) : List ℕ :=
  submitLoop (activeBounds m) limit manifest 0 0

/-- Specification-side description of the qualifying origins: the indices,
in manifest order, of the entries that are not yet inserted, have a nonzero
point count, and overlap the active bounds (no limit applied). -/
def qualifyingOriginsSpec (active : Bounds) : Manifest → ℕ → List ℕ
  | [], _ => []
  | item :: rest, origin =>
    if qualifies active item then
      origin :: qualifyingOriginsSpec active rest (origin + 1)
    else qualifyingOriginsSpec active rest (origin + 1)

/-! ### util/algorithm.hpp -/

/-- The scan loop shared by both `entwine::min_element` overloads
(util/algorithm.hpp): `best` is the current smallest element, `bestIdx` its
index, `j` the index of the head of `rest`. -/
def minElemGo {α : Type} (comp : α → α → Bool) :
    List α → α → ℕ → ℕ → ℕ
  | [], _, bestIdx, _ => bestIdx
  | a :: rest, best, bestIdx, j =>
    if comp a best then minElemGo comp rest a j (j + 1)
    else minElemGo comp rest best bestIdx (j + 1)

/-- `entwine::min_element` (util/algorithm.hpp), over a range given as a
list; the result is an index into the range, with the range's length
standing for the `last` iterator.  The overload without a comparator is
this with `comp a b = (a < b)`. -/
def min_element {α : Type} (comp : α → α → Bool) : List α → ℕ
  | [] => 0
  | a :: rest => minElemGo comp rest a 0 1

/-- The scan loop shared by both `entwine::max_element` overloads
(util/algorithm.hpp): a later element becomes `best` only when
`comp best later` holds. -/
def maxElemGo {α : Type} (comp : α → α → Bool) :
    List α → α → ℕ → ℕ → ℕ
  | [], _, bestIdx, _ => bestIdx
  | a :: rest, best, bestIdx, j =>
    if comp best a then maxElemGo comp rest a j (j + 1)
    else maxElemGo comp rest best bestIdx (j + 1)

/-- `entwine::max_element` (util/algorithm.hpp), over a range given as a
list; the result is an index into the range, with the range's length
standing for the `last` iterator. -/
def max_element {α : Type} (comp : α → α → Bool) : List α → ℕ
  | [] => 0
  | a :: rest => maxElemGo comp rest a 0 1

/-! ### Derived helpers used by the theorem statements -/

/-- The grid cell `Chunk::insert` targets for a key:
`((pos.y mod span) * span + (pos.x mod span), pos.z)`. -/
def cellOf (c : Chunk) (key : Key) : ℕ × ℕ :=
  ((key.position.y % c.span) * c.span + (key.position.x % c.span),
   key.position.z)

/-- The abstract bucket-selection step: replace the accumulator exactly
when the candidate's size strictly exceeds it. -/
def selStep (f : Fin 8 → ℕ) : ℕ × Fin 8 → Fin 8 → ℕ × Fin 8 :=
  fun acc d => if acc.1 < f d then (f d, d) else acc

/-- Specification-side description of the successful
`Chunk::insertOverflow` path: the bucket `o` at the point's octant gains a
deep copy of the entry, the overflow count rises by one, the call returns
`true`, and `maybeOverflow` runs exactly when the incremented count has
reached `minNodeSize`. -/
def insertOverflowSpec (c : Chunk) (voxel : Voxel) (key : Key)
    (o : Overflow) : Bool × Chunk × List CacheInsert :=
  let dir := getDirection c.chunkKey.bounds.mid voxel.point
  let c1 : Chunk :=
    { c with
        overflows := Function.update c.overflows dir (some (o.insert voxel key))
        overflowCount := c.overflowCount + 1 }
  if c.metadata.internal.minNodeSize ≤ c.overflowCount + 1 then
    (true, c1.maybeOverflow.1, c1.maybeOverflow.2)
  else (true, c1, [])

/-- The points a bucket contributes to `Chunk::save`'s table: its block
when present, nothing when absent. -/
def Chunk.bucketBlock (c : Chunk) (d : Fin 8) : List Voxel :=
  match c.overflows d with
  | some o => o.block
  | none => []

/-! ### Concrete inputs for witnesses and counterexamples -/

/-- An 8-unit cube at the origin. -/
def exBounds : Bounds := ⟨⟨0, 0, 0⟩, ⟨8, 8, 8⟩⟩

/-- A far-away box that does not overlap `exBounds`. -/
def farBounds : Bounds := ⟨⟨100, 100, 100⟩, ⟨101, 101, 101⟩⟩

/-- Small node-size tunables: split between 2 and 4 points. -/
def exInternal : Internal := ⟨2, 4⟩

/-- A minimal metadata: span 2, everything rooted at depth 0. -/
def exMetadata : Metadata :=
  { span := 2, startDepth := 0, sharedDepth := 0, bounds := exBounds
    boundsConforming := exBounds, subset := none, internal := exInternal
    dataType := "binary" }

/-- The empty hierarchy: no chunk persisted yet. -/
def exHierarchy : Hierarchy := fun _ => 0

/-- The root chunk key for `exMetadata`. -/
def exCk : ChunkKey := ⟨exBounds, 0, ⟨0, 0, 0⟩⟩

/-- The root descent key for `exMetadata`. -/
def exKey : Key := ⟨exBounds, 0, ⟨0, 0, 0⟩⟩

/-- A freshly constructed root chunk. -/
def exChunk : Chunk := Chunk.construct exMetadata exCk exHierarchy

/-- A sample point far from the bounds midpoint. -/
def exVoxel1 : Voxel := ⟨⟨1, 1, 1⟩, [1]⟩

/-- A sample point nearer the bounds midpoint than `exVoxel1`. -/
def exVoxel2 : Voxel := ⟨⟨2, 2, 2⟩, [2]⟩

/-- `exChunk` after `exVoxel1` has taken grid cell `(0, 0)`. -/
def exChunk1 : Chunk := (exChunk.insert exVoxel1 exKey).2.1

/-- An overflow entry used to populate example buckets. -/
def exEntryA : OverflowEntry := ⟨⟨⟨5, 5, 5⟩, [10]⟩, exKey⟩

/-- An overflow entry used to populate example buckets. -/
def exEntryB : OverflowEntry := ⟨⟨⟨6, 6, 6⟩, [11]⟩, exKey⟩

/-- An overflow entry used to populate example buckets. -/
def exEntryC : OverflowEntry := ⟨⟨⟨1, 2, 3⟩, [12]⟩, exKey⟩

/-- A two-entry bucket at octant 7. -/
def exBucket7 : Overflow := ⟨exCk.getStep 7, [exEntryA, exEntryB]⟩

/-- A one-entry bucket at octant 1. -/
def exBucket1 : Overflow := ⟨exCk.getStep 1, [exEntryC]⟩

/-- A chunk ripe for a split: 2 grid points plus 3 overflow points reach
`maxNodeSize = 4`, and the bucket at octant 7 reaches `minNodeSize = 2`. -/
def exSplitChunk : Chunk :=
  { metadata := exMetadata
    span := 2
    chunkKey := exCk
    childKeys := fun d => exCk.getStep d
    gridSize := 4
    grid := [((0, 0), exVoxel1), ((1, 0), exVoxel2)]
    gridBlock := [(0, 0), (1, 0)]
    overflows := fun d =>
      if d = 7 then some exBucket7
      else if d = 1 then some exBucket1
      else none
    overflowCount := 3 }

/-- Metadata whose root tile width is 8, for the span counterexample. -/
def c7Metadata : Metadata :=
  { span := 8, startDepth := 0, sharedDepth := 0, bounds := exBounds
    boundsConforming := exBounds, subset := none, internal := exInternal
    dataType := "binary" }

/-- A depth-1 chunk key for the span counterexample. -/
def c7Ck : ChunkKey := ⟨exBounds, 1, ⟨0, 0, 0⟩⟩

/-- Manifest entries for the builder examples: qualifying, zero points,
already inserted, out of bounds, qualifying. -/
def exManifest : Manifest :=
  [⟨⟨"a.laz", ⟨10, exBounds, []⟩⟩, false⟩,
   ⟨⟨"b.laz", ⟨0, exBounds, []⟩⟩, false⟩,
   ⟨⟨"c.laz", ⟨5, exBounds, []⟩⟩, true⟩,
   ⟨⟨"d.laz", ⟨7, farBounds, []⟩⟩, false⟩,
   ⟨⟨"e.laz", ⟨3, exBounds, []⟩⟩, false⟩]

/-- A concrete strict-weak-order comparison on `Fin 4` for the
`min_element` / `max_element` witness. -/
def exComp : Fin 4 → Fin 4 → Bool := fun a b => decide (a < b)

/-- A concrete range with ties for the `min_element` / `max_element`
witness. -/
def exRange : List (Fin 4) := [2, 1, 1, 3]

/-! ## Theorems -/

/-! ### Grid bookkeeping lemmas -/

theorem gridLookup_gridSet_self (cell : ℕ × ℕ) (v : Voxel) :
    ∀ (g : List ((ℕ × ℕ) × Voxel)) (r : Voxel),
      gridLookup cell g = some r →
      gridLookup cell (gridSet cell v g) = some v := by
  intro g
  induction g with
  | nil => intro r h; simp [gridLookup] at h
  | cons e t ih =>
    intro r h
    by_cases he : e.1 = cell
    · simp [gridSet, he, gridLookup]
    · simp only [gridSet, gridLookup, if_neg he] at h ⊢
      exact ih r h

theorem doOverflow_preserves_grid (c : Chunk) (dir : Fin 8) :
    (c.doOverflow dir).1.grid = c.grid ∧
    (c.doOverflow dir).1.gridBlock = c.gridBlock := by
  unfold Chunk.doOverflow
  cases c.overflows dir <;> simp

theorem maybeOverflow_preserves_grid (c : Chunk) :
    c.maybeOverflow.1.grid = c.grid ∧
    c.maybeOverflow.1.gridBlock = c.gridBlock := by
  unfold Chunk.maybeOverflow
  by_cases h1 :
      c.gridBlock.length + c.overflowCount < c.metadata.internal.maxNodeSize
  · simp [h1]
  · by_cases h2 : c.selectOverflow.1 < c.metadata.internal.minNodeSize
    · simp [h1, h2]
    · simpa [h1, h2] using doOverflow_preserves_grid c c.selectOverflow.2

theorem insertOverflow_preserves_grid (c : Chunk) (voxel : Voxel) (key : Key) :
    (c.insertOverflow voxel key).2.1.grid = c.grid ∧
    (c.insertOverflow voxel key).2.1.gridBlock = c.gridBlock := by
  unfold Chunk.insertOverflow
  by_cases h1 : c.chunkKey.depth < getSharedDepth c.metadata
  · simp [h1]
  · cases h2 : c.overflows (getDirection c.chunkKey.bounds.mid voxel.point) with
    | none => simp [h1, h2]
    | some o =>
      by_cases h3 : c.metadata.internal.minNodeSize ≤ c.overflowCount + 1
      · simpa [h1, h2, h3] using maybeOverflow_preserves_grid _
      · simp [h1, h2, h3]

/-! ### C4: overflow buckets at construction -/

/-- C4: for a chunk constructed from metadata, chunk key `ck` and
hierarchy `h`, the overflow bucket at octant `d` is present iff the
hierarchy has no persisted entry at `child_key(d)`'s dxyz, and absent iff
it has one; the chunk's child key at `d` is `ck.getStep d`. -/
theorem construct_overflow_iff_no_child (m : Metadata) (ck : ChunkKey)
    (h : Hierarchy) (d : Fin 8) :
    (((Chunk.construct m ck h).overflows d).isSome = true ↔
      hierarchy.get h ((ck.getStep d).dxyz) = 0) ∧
    (((Chunk.construct m ck h).overflows d).isNone = true ↔
      hierarchy.get h ((ck.getStep d).dxyz) ≠ 0) ∧
    (Chunk.construct m ck h).childKeys d = ck.getStep d := by
  refine ⟨?_, ?_, rfl⟩ <;>
    · simp only [Chunk.construct]
      split <;> simp_all

/-! ### C7: the grid span -/

/-- C7 counterexample: at depth 1 with root tile width 8, the constructed
chunk's span is 8 and its grid has 64 tubes, while the claimed formula
`2^(depth − start_depth)` clamped to the root tile width gives 2. -/
theorem construct_span_counterexample :
    (Chunk.construct c7Metadata c7Ck exHierarchy).span = 8 ∧
    (Chunk.construct c7Metadata c7Ck exHierarchy).gridSize = 64 ∧
    min (2 ^ (c7Ck.depth - getStartDepth c7Metadata)) c7Metadata.span = 2 ∧
    (Chunk.construct c7Metadata c7Ck exHierarchy).span ≠
      min (2 ^ (c7Ck.depth - getStartDepth c7Metadata)) c7Metadata.span := by
  refine ⟨rfl, rfl, rfl, ?_⟩
  decide

/-- C7 (amended): every constructed chunk's grid is `metadata.span ×
metadata.span` voxel tubes — the side length is the root tile width at
every depth and does not vary with the chunk's depth. -/
theorem construct_span_constant (m : Metadata) (ck₁ ck₂ : ChunkKey)
    (h₁ h₂ : Hierarchy) :
    (Chunk.construct m ck₁ h₁).span = m.span ∧
    (Chunk.construct m ck₁ h₁).gridSize = m.span * m.span ∧
    (Chunk.construct m ck₁ h₁).span = (Chunk.construct m ck₂ h₂).span :=
  ⟨rfl, rfl, rfl⟩

/-! ### C3: doOverflow -/

/-- C3: `doOverflow` on a present bucket detaches it, lowers the overflow
count by exactly the bucket's size, re-inserts every entry through the
cache in insertion order — key stepped one level toward the entry's point,
chunk key `child_key(dir)` — and leaves the grid and the other seven
buckets untouched. -/
theorem doOverflow_detaches_and_reinserts (c : Chunk) (dir : Fin 8)
    (o : Overflow) (hpres : c.overflows dir = some o)
    (hcount : o.list.length ≤ c.overflowCount) :
    (c.doOverflow dir).1.overflows dir = none ∧
    (c.doOverflow dir).1.overflowCount + o.list.length = c.overflowCount ∧
    (c.doOverflow dir).2 =
      o.list.map (fun entry =>
        ⟨entry.voxel, entry.key.step entry.voxel.point, c.childKeys dir⟩) ∧
    (∀ d : Fin 8, d ≠ dir → (c.doOverflow dir).1.overflows d = c.overflows d) ∧
    (c.doOverflow dir).1.grid = c.grid ∧
    (c.doOverflow dir).1.gridBlock = c.gridBlock := by
  unfold Chunk.doOverflow
  rw [hpres]
  refine ⟨by simp, by simp; omega, rfl, ?_, rfl, rfl⟩
  intro d hd
  simp [Function.update, hd]

/-- C3 witness: `doOverflow` at octant 7 of the concrete split-ready
chunk. -/
theorem doOverflow_witness :
    exSplitChunk.overflows 7 = some exBucket7 ∧
    exBucket7.list.length ≤ exSplitChunk.overflowCount ∧
    ((exSplitChunk.doOverflow 7).1.overflows 7 = none ∧
      (exSplitChunk.doOverflow 7).1.overflowCount + exBucket7.list.length =
        exSplitChunk.overflowCount ∧
      (exSplitChunk.doOverflow 7).2 =
        exBucket7.list.map (fun entry =>
          ⟨entry.voxel, entry.key.step entry.voxel.point,
            exSplitChunk.childKeys 7⟩) ∧
      (∀ d : Fin 8, d ≠ 7 →
        (exSplitChunk.doOverflow 7).1.overflows d = exSplitChunk.overflows d) ∧
      (exSplitChunk.doOverflow 7).1.grid = exSplitChunk.grid ∧
      (exSplitChunk.doOverflow 7).1.gridBlock = exSplitChunk.gridBlock) :=
  ⟨rfl, by decide,
   doOverflow_detaches_and_reinserts exSplitChunk 7 exBucket7 rfl (by decide)⟩

/-! ### C2: the split policy of maybeOverflow -/

theorem selectOverflow_eq_fold (c : Chunk) :
    c.selectOverflow = (List.finRange 8).foldl (selStep c.bucketSize) (0, 0) := by
  unfold Chunk.selectOverflow
  congr 1
  funext acc d
  cases h : c.overflows d with
  | none => simp [selStep, Chunk.bucketSize, h]
  | some o => simp [selStep, Chunk.bucketSize, h]

theorem selFold_no_update (f : Fin 8 → ℕ) (l : List (Fin 8)) :
    ∀ acc : ℕ × Fin 8, (∀ d ∈ l, f d ≤ acc.1) →
      l.foldl (selStep f) acc = acc := by
  induction l with
  | nil => intro acc _; rfl
  | cons a t ih =>
    intro acc h
    have ha : ¬ acc.1 < f a := Nat.not_lt.mpr (h a (by simp))
    simp only [List.foldl_cons, selStep, if_neg ha]
    exact ih acc (fun d hd => h d (by simp [hd]))

theorem selFold_lt (f : Fin 8 → ℕ) (l : List (Fin 8)) (M : ℕ) :
    ∀ acc : ℕ × Fin 8, acc.1 < M → (∀ d ∈ l, f d < M) →
      (l.foldl (selStep f) acc).1 < M := by
  induction l with
  | nil => intro acc ha _; exact ha
  | cons a t ih =>
    intro acc ha h
    simp only [List.foldl_cons, selStep]
    by_cases hc : acc.1 < f a
    · rw [if_pos hc]
      exact ih (f a, a) (h a (by simp)) (fun d hd => h d (by simp [hd]))
    · rw [if_neg hc]
      exact ih acc ha (fun d hd => h d (by simp [hd]))

theorem selFold_first_max (f : Fin 8 → ℕ) (l1 l2 : List (Fin 8)) (d0 : Fin 8)
    (acc : ℕ × Fin 8) (ha : acc.1 < f d0)
    (h1 : ∀ d ∈ l1, f d < f d0) (h2 : ∀ d ∈ l2, f d ≤ f d0) :
    (l1 ++ d0 :: l2).foldl (selStep f) acc = (f d0, d0) := by
  rw [List.foldl_append]
  have hmid : (l1.foldl (selStep f) acc).1 < f d0 := selFold_lt f l1 (f d0) acc ha h1
  simp only [List.foldl_cons, selStep, if_pos hmid]
  exact selFold_no_update f l2 (f d0, d0) (fun d hd => h2 d hd)

theorem selectOverflow_first_max (c : Chunk) (d0 : Fin 8)
    (hpos : 0 < c.bucketSize d0)
    (hmax : ∀ d, c.bucketSize d ≤ c.bucketSize d0)
    (hfirst : ∀ d, d < d0 → c.bucketSize d < c.bucketSize d0) :
    c.selectOverflow = (c.bucketSize d0, d0) := by
  rw [selectOverflow_eq_fold]
  fin_cases d0
  · rw [show List.finRange 8 =
        [] ++ (0 : Fin 8) :: [1, 2, 3, 4, 5, 6, 7] from by decide]
    refine selFold_first_max _ _ _ _ _ hpos ?_ ?_
    · intro d hd; simp at hd
    · intro d _; exact hmax d
  · rw [show List.finRange 8 =
        [0] ++ (1 : Fin 8) :: [2, 3, 4, 5, 6, 7] from by decide]
    refine selFold_first_max _ _ _ _ _ hpos ?_ ?_
    · intro d hd
      fin_cases hd
      exact hfirst _ (by decide)
    · intro d _; exact hmax d
  · rw [show List.finRange 8 =
        [0, 1] ++ (2 : Fin 8) :: [3, 4, 5, 6, 7] from by decide]
    refine selFold_first_max _ _ _ _ _ hpos ?_ ?_
    · intro d hd; fin_cases hd <;> exact hfirst _ (by decide)
    · intro d _; exact hmax d
  · rw [show List.finRange 8 =
        [0, 1, 2] ++ (3 : Fin 8) :: [4, 5, 6, 7] from by decide]
    refine selFold_first_max _ _ _ _ _ hpos ?_ ?_
    · intro d hd; fin_cases hd <;> exact hfirst _ (by decide)
    · intro d _; exact hmax d
  · rw [show List.finRange 8 =
        [0, 1, 2, 3] ++ (4 : Fin 8) :: [5, 6, 7] from by decide]
    refine selFold_first_max _ _ _ _ _ hpos ?_ ?_
    · intro d hd; fin_cases hd <;> exact hfirst _ (by decide)
    · intro d _; exact hmax d
  · rw [show List.finRange 8 =
        [0, 1, 2, 3, 4] ++ (5 : Fin 8) :: [6, 7] from by decide]
    refine selFold_first_max _ _ _ _ _ hpos ?_ ?_
    · intro d hd; fin_cases hd <;> exact hfirst _ (by decide)
    · intro d _; exact hmax d
  · rw [show List.finRange 8 =
        [0, 1, 2, 3, 4, 5] ++ (6 : Fin 8) :: [7] from by decide]
    refine selFold_first_max _ _ _ _ _ hpos ?_ ?_
    · intro d hd; fin_cases hd <;> exact hfirst _ (by decide)
    · intro d _; exact hmax d
  · rw [show List.finRange 8 =
        [0, 1, 2, 3, 4, 5, 6] ++ (7 : Fin 8) :: [] from by decide]
    refine selFold_first_max _ _ _ _ _ hpos ?_ ?_
    · intro d hd; fin_cases hd <;> exact hfirst _ (by decide)
    · intro d hd; simp at hd

/-- C2: `maybeOverflow` leaves the chunk unchanged when
`grid_block.size + overflow_count` is below `maxNodeSize`, and when every
bucket is below `minNodeSize`; when both thresholds are met it overflows
exactly the present bucket of largest size, ties broken by the lowest
octant index. -/
theorem maybeOverflow_split_policy (c : Chunk)
    (hmin : 0 < c.metadata.internal.minNodeSize) :
    (c.gridBlock.length + c.overflowCount < c.metadata.internal.maxNodeSize →
      c.maybeOverflow = (c, [])) ∧
    ((∀ d : Fin 8, c.bucketSize d < c.metadata.internal.minNodeSize) →
      c.maybeOverflow = (c, [])) ∧
    (∀ d0 : Fin 8,
      c.metadata.internal.maxNodeSize ≤ c.gridBlock.length + c.overflowCount →
      c.metadata.internal.minNodeSize ≤ c.bucketSize d0 →
      (∀ d, c.bucketSize d ≤ c.bucketSize d0) →
      (∀ d, d < d0 → c.bucketSize d < c.bucketSize d0) →
      (c.overflows d0).isSome = true ∧ c.maybeOverflow = c.doOverflow d0) := by
  refine ⟨?_, ?_, ?_⟩
  · intro h
    simp [Chunk.maybeOverflow, h]
  · intro h
    by_cases h1 :
        c.gridBlock.length + c.overflowCount < c.metadata.internal.maxNodeSize
    · simp [Chunk.maybeOverflow, h1]
    · have hsel : c.selectOverflow.1 < c.metadata.internal.minNodeSize := by
        rw [selectOverflow_eq_fold]
        exact selFold_lt c.bucketSize (List.finRange 8)
          c.metadata.internal.minNodeSize (0, 0) hmin (fun d _ => h d)
      simp [Chunk.maybeOverflow, h1, hsel]
  · intro d0 hmax hbig hall hlow
    have hpos : 0 < c.bucketSize d0 := lt_of_lt_of_le hmin hbig
    have hsome : (c.overflows d0).isSome = true := by
      unfold Chunk.bucketSize at hpos
      cases h : c.overflows d0 with
      | none => rw [h] at hpos; simp at hpos
      | some o => simp
    have hsel : c.selectOverflow = (c.bucketSize d0, d0) :=
      selectOverflow_first_max c d0 hpos hall hlow
    refine ⟨hsome, ?_⟩
    have h1 : ¬ c.gridBlock.length + c.overflowCount <
        c.metadata.internal.maxNodeSize := Nat.not_lt.mpr hmax
    have h2 : ¬ c.selectOverflow.1 < c.metadata.internal.minNodeSize := by
      rw [hsel]; exact Nat.not_lt.mpr hbig
    simp only [Chunk.maybeOverflow, if_neg h1, if_neg h2, hsel]
    exact if_neg (Nat.not_lt.mpr hbig)

/-- C2 witness: the concrete split-ready chunk overflows its largest
bucket (octant 7), and the fresh chunk below both thresholds is left
unchanged. -/
theorem maybeOverflow_witness :
    0 < exSplitChunk.metadata.internal.minNodeSize ∧
    ((exSplitChunk.overflows 7).isSome = true ∧
      exSplitChunk.maybeOverflow = exSplitChunk.doOverflow 7) ∧
    exChunk.maybeOverflow = (exChunk, []) :=
  ⟨by decide,
   (maybeOverflow_split_policy exSplitChunk (by decide)).2.2 7
     (by decide) (by decide) (by decide) (by decide),
   (maybeOverflow_split_policy exChunk (by decide)).1 (by decide)⟩

/-! ### C5: insertOverflow -/

/-- C5: `insertOverflow` returns `false` without touching any bucket below
the shared depth, and when the point's octant has no bucket; otherwise it
deep-copies the entry into that bucket, raises the overflow count by one,
returns `true`, and runs `maybeOverflow` exactly when the incremented count
has reached `minNodeSize` (as described by `insertOverflowSpec`). -/
theorem insertOverflow_routing (c : Chunk) (voxel : Voxel) (key : Key) :
    (c.chunkKey.depth < getSharedDepth c.metadata →
      c.insertOverflow voxel key = (false, c, [])) ∧
    (getSharedDepth c.metadata ≤ c.chunkKey.depth →
      (c.overflows (getDirection c.chunkKey.bounds.mid voxel.point) = none →
        c.insertOverflow voxel key = (false, c, [])) ∧
      (∀ o : Overflow,
        c.overflows (getDirection c.chunkKey.bounds.mid voxel.point) = some o →
        c.insertOverflow voxel key = insertOverflowSpec c voxel key o)) := by
  refine ⟨?_, ?_⟩
  · intro h
    simp [Chunk.insertOverflow, h]
  · intro hdepth
    have h1 : ¬ c.chunkKey.depth < getSharedDepth c.metadata :=
      Nat.not_lt.mpr hdepth
    constructor
    · intro hnone
      simp [Chunk.insertOverflow, h1, hnone]
    · intro o hsome
      simp only [Chunk.insertOverflow, if_neg h1, hsome, insertOverflowSpec]

/-- C5 witness: inserting into the fresh root chunk (shared depth met,
bucket 0 present and empty). -/
theorem insertOverflow_witness :
    getSharedDepth exChunk.metadata ≤ exChunk.chunkKey.depth ∧
    exChunk.overflows (getDirection exChunk.chunkKey.bounds.mid
      exVoxel1.point) = some ⟨exCk.getStep 0, []⟩ ∧
    exChunk.insertOverflow exVoxel1 exKey =
      insertOverflowSpec exChunk exVoxel1 exKey ⟨exCk.getStep 0, []⟩ := by
  have hdir : getDirection exChunk.chunkKey.bounds.mid exVoxel1.point = 0 := by
    have hmid : exChunk.chunkKey.bounds.mid = ⟨4, 4, 4⟩ := by
      show exBounds.mid = _
      simp [Bounds.mid, exBounds]
      norm_num
    rw [hmid]
    simp only [getDirection, exVoxel1]
    norm_num
  have hsome : exChunk.overflows (getDirection exChunk.chunkKey.bounds.mid
      exVoxel1.point) = some ⟨exCk.getStep 0, []⟩ := by rw [hdir]; rfl
  exact ⟨by decide, hsome,
    ((insertOverflow_routing exChunk exVoxel1 exKey).2 (by decide)).2
      ⟨exCk.getStep 0, []⟩ hsome⟩

/-! ### C1: the collision rule of insert -/

/-- C1: when the target grid cell already holds a resident voxel `r`, the
cell keeps whichever of the incoming voxel and `r` is strictly nearer the
midpoint of the chunk's bounds (ties keep the resident), the deep payloads
are swapped exactly when the incoming voxel is strictly nearer, and the
loser is routed onward through `insertOverflow`.  The hypothesis `hmid`
records that the descent key carries the chunk's own bounds, as every call
site arranges. -/
theorem insert_collision_keeps_nearer (c : Chunk) (voxel : Voxel) (key : Key)
    (r : Voxel) (hres : gridLookup (cellOf c key) c.grid = some r)
    (hmid : key.bounds.mid = c.chunkKey.bounds.mid) :
    (voxel.point.sqDist3d c.chunkKey.bounds.mid <
        r.point.sqDist3d c.chunkKey.bounds.mid →
      c.insert voxel key =
        Chunk.insertOverflow
          { c with grid := gridSet (cellOf c key) voxel c.grid } r key ∧
      gridLookup (cellOf c key) (c.insert voxel key).2.1.grid = some voxel) ∧
    (r.point.sqDist3d c.chunkKey.bounds.mid ≤
        voxel.point.sqDist3d c.chunkKey.bounds.mid →
      c.insert voxel key = c.insertOverflow voxel key ∧
      gridLookup (cellOf c key) (c.insert voxel key).2.1.grid = some r) := by
  have hunfold : c.insert voxel key =
      (if voxel.point.sqDist3d key.bounds.mid < r.point.sqDist3d key.bounds.mid
       then Chunk.insertOverflow
         { c with grid := gridSet (cellOf c key) voxel c.grid } r key
       else c.insertOverflow voxel key) := by
    have hres' : gridLookup
        ((key.position.y % c.span) * c.span + key.position.x % c.span,
          key.position.z) c.grid = some r := hres
    unfold Chunk.insert
    simp only [hres']
    rfl
  constructor
  · intro hlt
    rw [hmid] at hunfold
    rw [hunfold, if_pos hlt]
    refine ⟨rfl, ?_⟩
    rw [(insertOverflow_preserves_grid _ r key).1]
    exact gridLookup_gridSet_self (cellOf c key) voxel c.grid r hres
  · intro hle
    have hnlt : ¬ voxel.point.sqDist3d c.chunkKey.bounds.mid <
        r.point.sqDist3d c.chunkKey.bounds.mid := not_lt.mpr hle
    rw [hmid] at hunfold
    rw [hunfold, if_neg hnlt]
    refine ⟨rfl, ?_⟩
    rw [(insertOverflow_preserves_grid c voxel key).1]
    exact hres

/-- C1 witness: the second point at grid cell `(0, 0)` is strictly nearer
the midpoint `(4,4,4)` than the resident, so it displaces it and the
resident is routed onward. -/
theorem insert_collision_witness :
    gridLookup (cellOf exChunk1 exKey) exChunk1.grid = some exVoxel1 ∧
    exKey.bounds.mid = exChunk1.chunkKey.bounds.mid ∧
    exVoxel2.point.sqDist3d exChunk1.chunkKey.bounds.mid <
      exVoxel1.point.sqDist3d exChunk1.chunkKey.bounds.mid ∧
    (exChunk1.insert exVoxel2 exKey =
      Chunk.insertOverflow
        { exChunk1 with
            grid := gridSet (cellOf exChunk1 exKey) exVoxel2 exChunk1.grid }
        exVoxel1 exKey ∧
      gridLookup (cellOf exChunk1 exKey) (exChunk1.insert exVoxel2 exKey).2.1.grid =
        some exVoxel2) := by
  have hcloser : exVoxel2.point.sqDist3d exChunk1.chunkKey.bounds.mid <
      exVoxel1.point.sqDist3d exChunk1.chunkKey.bounds.mid := by
    show exVoxel2.point.sqDist3d exBounds.mid < exVoxel1.point.sqDist3d exBounds.mid
    simp [Point.sqDist3d, Bounds.mid, exBounds, exVoxel1, exVoxel2]
    norm_num
  exact ⟨rfl, rfl, hcloser,
    (insert_collision_keeps_nearer exChunk1 exVoxel2 exKey exVoxel1 rfl rfl).1
      hcloser⟩

/-! ### C6: save -/

theorem foldl_add_map (f : Fin 8 → ℕ) (l : List (Fin 8)) :
    ∀ a : ℕ, l.foldl (fun n d => n + f d) a = a + (l.map f).sum := by
  induction l with
  | nil => intro a; simp
  | cons x t ih => intro a; simp [List.foldl_cons, ih, Nat.add_assoc]

theorem foldl_append_map (g : Fin 8 → List Voxel) (l : List (Fin 8)) :
    ∀ init : List Voxel,
      l.foldl (fun t d => t ++ g d) init = init ++ (l.map g).flatten := by
  induction l with
  | nil => intro i; simp
  | cons x t ih => intro i; simp [List.foldl_cons, ih]

theorem length_filterMap_of_isSome (g : List ((ℕ × ℕ) × Voxel)) :
    ∀ l : List (ℕ × ℕ),
      (∀ cell ∈ l, (gridLookup cell g).isSome = true) →
      (l.filterMap (fun cell => gridLookup cell g)).length = l.length := by
  intro l
  induction l with
  | nil => intro _; rfl
  | cons x t ih =>
    intro h
    obtain ⟨v, hv⟩ := Option.isSome_iff_exists.mp (h x (by simp))
    simp only [List.filterMap_cons, hv, List.length_cons]
    rw [ih (fun cell hc => h cell (by simp [hc]))]

theorem bucketBlock_length (c : Chunk) (d : Fin 8) :
    (c.bucketBlock d).length = c.bucketSize d := by
  unfold Chunk.bucketBlock Chunk.bucketSize
  cases c.overflows d <;> simp [Overflow.block]

/-- C6: `save` reports a point count of `grid_block.size` plus the sizes of
all present overflow buckets, writes exactly that many points as one table
— the grid block first, then the present buckets in octant order 0..7 —
through the codec named by `metadata.dataType`, under the file name
`chunkKey.toString() + postfix(depth)`.  The hypothesis `hfull` is the
grid-arena invariant: every allocated cell holds a resident voxel. -/
theorem save_counts_and_concatenates (c : Chunk)
    (hfull : ∀ cell ∈ c.gridBlock, (gridLookup cell c.grid).isSome = true) :
    c.save.np = c.gridBlock.length + ((List.finRange 8).map c.bucketSize).sum ∧
    c.save.table =
      c.gridBlock.filterMap (fun cell => gridLookup cell c.grid) ++
        ((List.finRange 8).map c.bucketBlock).flatten ∧
    c.save.np = c.save.table.length ∧
    c.save.filename =
      c.chunkKey.toString ++ getPostfixStr c.metadata c.chunkKey.depth ∧
    c.save.dataType = c.metadata.dataType := by
  have hnp0 : c.save.np =
      (List.finRange 8).foldl
        (fun n d =>
          match c.overflows d with
          | some o => n + o.list.length
          | none => n)
        c.gridBlock.length := rfl
  have hnp : c.save.np =
      c.gridBlock.length + ((List.finRange 8).map c.bucketSize).sum := by
    rw [hnp0, show (fun (n : ℕ) (d : Fin 8) =>
        match c.overflows d with
        | some o => n + o.list.length
        | none => n) = fun n d => n + c.bucketSize d from by
      funext n d
      cases h : c.overflows d <;> simp [Chunk.bucketSize, h]]
    exact foldl_add_map c.bucketSize (List.finRange 8) c.gridBlock.length
  have htab0 : c.save.table =
      (List.finRange 8).foldl
        (fun t d =>
          match c.overflows d with
          | some o => t ++ o.block
          | none => t)
        (c.gridBlock.filterMap (fun cell => gridLookup cell c.grid)) := rfl
  have htab : c.save.table =
      c.gridBlock.filterMap (fun cell => gridLookup cell c.grid) ++
        ((List.finRange 8).map c.bucketBlock).flatten := by
    rw [htab0, show (fun (t : List Voxel) (d : Fin 8) =>
        match c.overflows d with
        | some o => t ++ o.block
        | none => t) = fun t d => t ++ c.bucketBlock d from by
      funext t d
      cases h : c.overflows d <;> simp [Chunk.bucketBlock, h]]
    exact foldl_append_map c.bucketBlock (List.finRange 8) _
  refine ⟨hnp, htab, ?_, rfl, rfl⟩
  have hmaps : List.map (List.length ∘ c.bucketBlock) (List.finRange 8) =
      List.map c.bucketSize (List.finRange 8) :=
    List.map_congr_left (fun d _ => bucketBlock_length c d)
  rw [hnp, htab, List.length_append,
    length_filterMap_of_isSome c.grid c.gridBlock hfull,
    List.length_flatten, List.map_map, hmaps]

/-- C6 witness: saving the concrete split-ready chunk (2 grid points,
buckets of sizes 1 and 2). -/
theorem save_witness :
    (∀ cell ∈ exSplitChunk.gridBlock,
      (gridLookup cell exSplitChunk.grid).isSome = true) ∧
    (exSplitChunk.save.np =
      exSplitChunk.gridBlock.length +
        ((List.finRange 8).map exSplitChunk.bucketSize).sum ∧
    exSplitChunk.save.table =
      exSplitChunk.gridBlock.filterMap
        (fun cell => gridLookup cell exSplitChunk.grid) ++
        ((List.finRange 8).map exSplitChunk.bucketBlock).flatten ∧
    exSplitChunk.save.np = exSplitChunk.save.table.length ∧
    exSplitChunk.save.filename =
      exSplitChunk.chunkKey.toString ++
        getPostfixStr exSplitChunk.metadata exSplitChunk.chunkKey.depth ∧
    exSplitChunk.save.dataType = exSplitChunk.metadata.dataType) :=
  ⟨by decide, save_counts_and_concatenates exSplitChunk (by decide)⟩

/-! ### C8: tryInsert -/

theorem get?_set_self {α : Type} :
    ∀ (l : List α) (n : ℕ) (a : α), n < l.length →
      List.get? (List.set l n a) n = some a := by
  intro l
  induction l with
  | nil => intro n a h; simp at h
  | cons x t ih =>
    intro n a h
    cases n with
    | zero => rfl
    | succ m =>
      simp only [List.set, List.get?]
      exact ih m a (by simpa using h)

/-- C8: `tryInsert` never propagates a failure of the wrapped insert: a
`std::exception`'s message — or `"Unknown error during build"` for any
other throw — is appended to the source's error list, and in every case the
manifest item ends up with `inserted = true`, so the source is not retried
within the run. -/
theorem tryInsert_captures_and_marks (manifest : Manifest) (originId : ℕ)
    (outcome : InsertOutcome) (item : BuildItem)
    (hget : List.get? manifest originId = some item) :
    Builder.tryInsert manifest originId outcome =
      List.set manifest originId
        { item with
            inserted := true
            source.info.errors := item.source.info.errors ++ errorsOf outcome } ∧
    List.get? (Builder.tryInsert manifest originId outcome) originId =
      some { item with
              inserted := true
              source.info.errors :=
                item.source.info.errors ++ errorsOf outcome } := by
  have h1 : Builder.tryInsert manifest originId outcome =
      List.set manifest originId
        { item with
            inserted := true
            source.info.errors := item.source.info.errors ++ errorsOf outcome } := by
    unfold Builder.tryInsert
    rw [hget]
    cases outcome <;> simp [errorsOf]
  have hlt : originId < manifest.length := by
    rcases List.get?_eq_some.mp hget with ⟨h, _⟩
    exact h
  refine ⟨h1, ?_⟩
  rw [h1]
  exact get?_set_self manifest originId _ hlt

/-- C8 witness: a `std::exception` with message `"boom"` thrown while
inserting origin 1 of the concrete manifest. -/
theorem tryInsert_witness :
    List.get? exManifest 1 =
      some ⟨⟨"b.laz", ⟨0, exBounds, []⟩⟩, false⟩ ∧
    (Builder.tryInsert exManifest 1 (.stdExc "boom") =
      List.set exManifest 1
        { (⟨⟨"b.laz", ⟨0, exBounds, []⟩⟩, false⟩ : BuildItem) with
            inserted := true
            source.info.errors := ([] : List String) ++ errorsOf (.stdExc "boom") } ∧
    List.get? (Builder.tryInsert exManifest 1 (.stdExc "boom")) 1 =
      some { (⟨⟨"b.laz", ⟨0, exBounds, []⟩⟩, false⟩ : BuildItem) with
              inserted := true
              source.info.errors :=
                ([] : List String) ++ errorsOf (.stdExc "boom") }) :=
  ⟨rfl, tryInsert_captures_and_marks exManifest 1 (.stdExc "boom")
    ⟨⟨"b.laz", ⟨0, exBounds, []⟩⟩, false⟩ rfl⟩

/-! ### C9: the submission policy of runInserts -/

theorem submitLoop_eq_take (active : Bounds) (limit : ℕ) (man : Manifest) :
    ∀ origin files : ℕ,
      submitLoop active limit man origin files =
        if limit = 0 then qualifyingOriginsSpec active man origin
        else (qualifyingOriginsSpec active man origin).take (limit - files) := by
  induction man with
  | nil =>
    intro origin files
    simp [submitLoop, qualifyingOriginsSpec]
  | cons item rest ih =>
    intro origin files
    by_cases h0 : limit = 0
    · subst h0
      simp only [submitLoop, qualifyingOriginsSpec, if_neg (by simp :
        ¬ ((0 : ℕ) ≠ 0 ∧ (0 : ℕ) ≤ files))]
      by_cases hq : qualifies active item
      · simp [hq, ih, reduceIte]
      · simp [hq, ih, reduceIte]
    · rw [if_neg h0]
      by_cases hstop : limit ≤ files
      · have hz : limit - files = 0 := Nat.sub_eq_zero_of_le hstop
        have hc : limit ≠ 0 ∧ limit ≤ files := ⟨h0, hstop⟩
        rw [hz]
        simp only [submitLoop, if_pos hc, List.take_zero]
      · have hcond : ¬ (limit ≠ 0 ∧ limit ≤ files) := by
          intro h; exact hstop h.2
        simp only [submitLoop, qualifyingOriginsSpec, if_neg hcond]
        by_cases hq : qualifies active item
        · rw [if_pos hq, if_pos hq, ih (origin + 1) (files + 1), if_neg h0,
            show limit - files = (limit - (files + 1)) + 1 from by omega,
            List.take_succ_cons]
        · rw [if_neg hq, if_neg hq, ih (origin + 1) files, if_neg h0]

/-- C9: `runInserts` submits exactly the origins — in manifest order — of
the entries not yet inserted, with points, overlapping the active bounds
(the subset bounds intersected with the conforming bounds when a subset is
configured, else the conforming bounds); a nonzero `limit` truncates the
submissions to the first `limit` qualifying origins, so `limit = 1` submits
exactly one qualifying file when one exists. -/
theorem runInserts_submits_qualifying (m : Metadata) (manifest : Manifest)
    (limit : ℕ) :
    Builder.runInsertsSubmitted m manifest limit =
      (if limit = 0 then qualifyingOriginsSpec (activeBounds m) manifest 0
       else (qualifyingOriginsSpec (activeBounds m) manifest 0).take limit) ∧
    (limit ≠ 0 →
      (Builder.runInsertsSubmitted m manifest limit).length ≤ limit) ∧
    (limit = 1 → qualifyingOriginsSpec (activeBounds m) manifest 0 ≠ [] →
      (Builder.runInsertsSubmitted m manifest limit).length = 1) := by
  have hmain : Builder.runInsertsSubmitted m manifest limit =
      (if limit = 0 then qualifyingOriginsSpec (activeBounds m) manifest 0
       else (qualifyingOriginsSpec (activeBounds m) manifest 0).take limit) := by
    unfold Builder.runInsertsSubmitted
    rw [submitLoop_eq_take, Nat.sub_zero]
  refine ⟨hmain, ?_, ?_⟩
  · intro h0
    rw [hmain, if_neg h0, List.length_take]
    exact min_le_left _ _
  · intro h1 hne
    subst h1
    rw [hmain]
    cases h : qualifyingOriginsSpec (activeBounds m) manifest 0 with
    | nil => exact absurd h hne
    | cons a t => simp

/-- C9 witness: of the five concrete manifest entries, origins 0 and 4
qualify (origin 1 has no points, origin 2 is already inserted, origin 3 is
out of bounds); with `limit = 1` exactly origin 0 is submitted. -/
theorem runInserts_witness :
    qualifyingOriginsSpec (activeBounds exMetadata) exManifest 0 = [0, 4] ∧
    (Builder.runInsertsSubmitted exMetadata exManifest 1 =
      (if (1 : ℕ) = 0 then qualifyingOriginsSpec (activeBounds exMetadata) exManifest 0
       else (qualifyingOriginsSpec (activeBounds exMetadata) exManifest 0).take 1)) ∧
    (Builder.runInsertsSubmitted exMetadata exManifest 1).length = 1 := by
  have hspec : qualifyingOriginsSpec (activeBounds exMetadata) exManifest 0 =
      [0, 4] := by
    have hact : activeBounds exMetadata = exBounds := rfl
    rw [hact]
    have hov1 : exBounds.overlaps exBounds = true := by
      simp [Bounds.overlaps, exBounds]
    have hov2 : exBounds.overlaps farBounds = false := by
      simp [Bounds.overlaps, exBounds, farBounds]
      norm_num
    simp [qualifyingOriginsSpec, exManifest, qualifies, hov1, hov2]
  refine ⟨hspec, (runInserts_submits_qualifying exMetadata exManifest 1).1, ?_⟩
  exact (runInserts_submits_qualifying exMetadata exManifest 1).2.2 rfl
    (by rw [hspec]; simp)

/-! ### C10: min_element / max_element -/

theorem minElemGo_spec {α : Type} (comp : α → α → Bool)
    (hirr : ∀ a, comp a a = false)
    (htr : ∀ a b c, comp a b = true → comp b c = true → comp a c = true)
    (hle : ∀ a b c, comp b a = false → comp c b = false → comp c a = false)
    (l : List α) :
    ∀ (rest : List α) (j : ℕ) (bestF : Fin l.length),
      rest = l.drop j → bestF.val < j →
      (∀ i : Fin l.length, i.val < j → comp (l.get i) (l.get bestF) = false) →
      (∀ i : Fin l.length, i.val < bestF.val →
        comp (l.get bestF) (l.get i) = true) →
      ∃ m : Fin l.length,
        minElemGo comp rest (l.get bestF) bestF.val j = m.val ∧
        (∀ i : Fin l.length, comp (l.get i) (l.get m) = false) ∧
        (∀ i : Fin l.length, i.val < m.val → comp (l.get m) (l.get i) = true) := by
  intro rest
  induction rest with
  | nil =>
    intro j bestF hrest hb hmin hfirst
    refine ⟨bestF, rfl, ?_, hfirst⟩
    have hlen : l.length ≤ j := List.drop_eq_nil_iff.mp hrest.symm
    exact fun i => hmin i (lt_of_lt_of_le i.isLt hlen)
  | cons a t ih =>
    intro j bestF hrest hb hmin hfirst
    have hjlt : j < l.length := by
      by_contra hc
      push_neg at hc
      rw [List.drop_eq_nil_iff.mpr hc] at hrest
      exact absurd hrest (by simp)
    have hd : l.drop j = l.get ⟨j, hjlt⟩ :: l.drop (j + 1) := by
      rw [List.drop_eq_getElem_cons hjlt]
      rfl
    rw [hd] at hrest
    injection hrest with ha ht
    subst ha
    by_cases hcab : comp (l.get ⟨j, hjlt⟩) (l.get bestF) = true
    · simp only [minElemGo, if_pos hcab]
      refine ih (j + 1) ⟨j, hjlt⟩ ht (Nat.lt_succ_self j) ?_ ?_
      · intro i hij1
        rcases Nat.lt_succ_iff_lt_or_eq.mp hij1 with hij | hij
        · cases hcy : comp (l.get i) (l.get ⟨j, hjlt⟩) with
          | false => rfl
          | true =>
            have : comp (l.get i) (l.get bestF) = true :=
              htr _ _ _ hcy hcab
            rw [hmin i hij] at this
            exact absurd this (by simp)
        · have : i = ⟨j, hjlt⟩ := Fin.ext hij
          rw [this]
          exact hirr _
      · intro i hij
        rcases lt_trichotomy i.val bestF.val with hcase | hcase | hcase
        · exact htr _ _ _ hcab (hfirst i hcase)
        · have : i = bestF := Fin.ext hcase
          rw [this]
          exact hcab
        · cases hcy : comp (l.get ⟨j, hjlt⟩) (l.get i) with
          | true => rfl
          | false =>
            have : comp (l.get ⟨j, hjlt⟩) (l.get bestF) = false :=
              hle (l.get bestF) (l.get i) (l.get ⟨j, hjlt⟩) (hmin i hij) hcy
            rw [hcab] at this
            exact absurd this (by simp)
    · have hcab' : comp (l.get ⟨j, hjlt⟩) (l.get bestF) = false :=
        Bool.not_eq_true _ ▸ (by simpa using hcab)
      simp only [minElemGo, if_neg hcab]
      refine ih (j + 1) bestF ht (Nat.lt_succ_of_lt hb) ?_ hfirst
      intro i hij1
      rcases Nat.lt_succ_iff_lt_or_eq.mp hij1 with hij | hij
      · exact hmin i hij
      · have : i = ⟨j, hjlt⟩ := Fin.ext hij
        rw [this]
        exact hcab'

theorem maxElemGo_eq_minElemGo_flip {α : Type} (comp : α → α → Bool) :
    ∀ (rest : List α) (best : α) (bestIdx j : ℕ),
      maxElemGo comp rest best bestIdx j =
        minElemGo (fun x y => comp y x) rest best bestIdx j := by
  intro rest
  induction rest with
  | nil => intro best bestIdx j; rfl
  | cons a t ih =>
    intro best bestIdx j
    simp only [maxElemGo, minElemGo]
    by_cases h : comp best a = true
    · rw [if_pos h, if_pos h, ih]
    · rw [if_neg h, if_neg h, ih]

/-- C10: on an empty range both `entwine::min_element` and
`entwine::max_element` return `last` (the range's length, in the index
model); on a nonempty range, under a strict-weak-order comparison
(irreflexive, transitive, with transitive incomparability expressed as
transitivity of `comp · · = false` flipped), `min_element` returns the
first element attaining the minimum — no element compares below it and it
compares strictly below every earlier element — and `max_element`
symmetrically returns the first element attaining the maximum, matching
the `std::min_element` / `std::max_element` reference semantics. -/
theorem min_max_element_first_extremal {α : Type} (comp : α → α → Bool)
    (l : List α)
    (hirr : ∀ a, comp a a = false)
    (htr : ∀ a b c, comp a b = true → comp b c = true → comp a c = true)
    (hle : ∀ a b c, comp b a = false → comp c b = false → comp c a = false) :
    (l = [] → min_element comp l = l.length ∧ max_element comp l = l.length) ∧
    (l ≠ [] →
      (∃ m : Fin l.length,
        min_element comp l = m.val ∧
        (∀ i : Fin l.length, comp (l.get i) (l.get m) = false) ∧
        (∀ i : Fin l.length, i.val < m.val → comp (l.get m) (l.get i) = true)) ∧
      (∃ m : Fin l.length,
        max_element comp l = m.val ∧
        (∀ i : Fin l.length, comp (l.get m) (l.get i) = false) ∧
        (∀ i : Fin l.length, i.val < m.val →
          comp (l.get i) (l.get m) = true))) := by
  constructor
  · intro h
    subst h
    exact ⟨rfl, rfl⟩
  · intro hne
    cases l with
    | nil => exact absurd rfl hne
    | cons x rest =>
      constructor
      · have h0 : (0 : ℕ) < (x :: rest).length := by simp
        have hx : (x :: rest).get ⟨0, h0⟩ = x := rfl
        have := minElemGo_spec comp hirr htr hle (x :: rest) rest 1 ⟨0, h0⟩
          rfl (Nat.lt_succ_self 0)
          (fun i hi => by
            have : i = ⟨0, h0⟩ := Fin.ext (Nat.lt_one_iff.mp hi)
            rw [this, hx]
            exact hirr x)
          (fun i hi => absurd hi (Nat.not_lt_zero _))
        rw [hx] at this
        exact this
      · have h0 : (0 : ℕ) < (x :: rest).length := by simp
        have hx : (x :: rest).get ⟨0, h0⟩ = x := rfl
        have hflip := minElemGo_spec (fun p q => comp q p)
          (fun a => hirr a)
          (fun a b c h1 h2 => htr c b a h2 h1)
          (fun a b c h1 h2 => hle c b a h2 h1)
          (x :: rest) rest 1 ⟨0, h0⟩
          rfl (Nat.lt_succ_self 0)
          (fun i hi => by
            have : i = ⟨0, h0⟩ := Fin.ext (Nat.lt_one_iff.mp hi)
            rw [this, hx]
            exact hirr x)
          (fun i hi => absurd hi (Nat.not_lt_zero _))
        rw [hx] at hflip
        obtain ⟨m, hm, hmax, hbefore⟩ := hflip
        refine ⟨m, ?_, hmax, hbefore⟩
        show maxElemGo comp rest x 0 1 = m.val
        rw [maxElemGo_eq_minElemGo_flip]
        exact hm

/-- C10 witness: over `Fin 4` with `comp a b = (a < b)` and the range
`[2, 1, 1, 3]`, the hypotheses hold and the characterizations apply; in
particular the first of the two tied `1`s is the minimum and `3` is the
maximum. -/
theorem min_max_element_witness :
    (∀ a : Fin 4, exComp a a = false) ∧
    (∀ a b c : Fin 4, exComp a b = true → exComp b c = true →
      exComp a c = true) ∧
    (∀ a b c : Fin 4, exComp b a = false → exComp c b = false →
      exComp c a = false) ∧
    (exRange ≠ [] →
      (∃ m : Fin exRange.length,
        min_element exComp exRange = m.val ∧
        (∀ i : Fin exRange.length,
          exComp (exRange.get i) (exRange.get m) = false) ∧
        (∀ i : Fin exRange.length, i.val < m.val →
          exComp (exRange.get m) (exRange.get i) = true)) ∧
      (∃ m : Fin exRange.length,
        max_element exComp exRange = m.val ∧
        (∀ i : Fin exRange.length,
          exComp (exRange.get m) (exRange.get i) = false) ∧
        (∀ i : Fin exRange.length, i.val < m.val →
          exComp (exRange.get i) (exRange.get m) = true))) :=
  ⟨by decide, by decide, by decide,
   (min_max_element_first_extremal exComp exRange (by decide) (by decide)
     (by decide)).2⟩

end Entwine
